import Mathlib

/-!
Verification of the Red Bull editions generator
(`redbull_editions_json_generate.py`) against its natural-language
specification.

The file shallowly embeds the pure core of the script:

* the Text Canonicalizer helpers (`_clean_duplicated_text`, the
  acai-folding step of `_extract_relevant_gql_details`,
  `_capitalize_second_word`, and the character-strip passes),
* the Manual Override Engine (`_apply_data_fixes`),
* the Snapshot Differ (`compare_raw_data_and_generate_changelog`,
  restricted to its pure comparison of two parsed snapshots),
* the Strip/Side-Map Extractor (`_prepare_data_for_ai`),
* the Normalization Gateway retry loop (`normalize_with_gemini`,
  with the external call abstracted as an oracle of per-attempt
  outcomes),
* the Rehydrator (`_rehydrate_ai_response`, with the warning log
  modelled as the returned anomaly list, following the spec's
  "anomalies" abstraction).

Modelling conventions (stated once here, referenced in doc strings):

* JSON objects of the fixed catalog schema are Lean structures whose
  fields are `Option String`; `none` models an absent key.  A key that
  is present with JSON `null` is not representable; theorems whose
  truth would depend on that distinction carry hypotheses ruling it
  out.
* Python `dict`s used as maps keyed by strings are association lists
  together with `dict_insert` (overwrite in place, append when fresh)
  and first-match lookup.
* Python regular-expression substitutions are implemented as direct
  left-to-right scans; each scan is written to coincide with
  `re.sub`'s leftmost, non-overlapping semantics for the pattern it
  models (justification in each doc string).
* Case mapping (`str.lower`, `str.capitalize`, …) is modelled on the
  ASCII range, matching the repertoire the script's own tables and
  regexes handle; `\w`, `\s` and the character classes of the source
  regexes are likewise taken at their ASCII meaning.
* `unicodedata.normalize` is modelled over the character repertoire
  the source comments enumerate (c-cedilla and the accented vowels of
  the acai family), which covers every string the relevant theorems
  mention.
-/

set_option maxRecDepth 8192

/-! ## Character helpers -/

/-- ASCII lowercase mapping, modelling `str.lower` / `re.IGNORECASE`
case folding on the ASCII repertoire used by the script's rules. -/
def ascii_lower (c : Char) : Char :=
  if 65 ≤ c.toNat ∧ c.toNat ≤ 90 then Char.ofNat (c.toNat + 32) else c

/-- ASCII uppercase mapping (first letter of `str.capitalize`). -/
def ascii_upper (c : Char) : Char :=
  if 97 ≤ c.toNat ∧ c.toNat ≤ 122 then Char.ofNat (c.toNat - 32) else c

/-- The whitespace class `\s` of the source regexes, at its ASCII
meaning: space, tab, newline, carriage return, vertical tab, form
feed. -/
def is_space_char (c : Char) : Bool :=
  c == ' ' || c == '\t' || c == '\n' || c == '\r' ||
  c == Char.ofNat 11 || c == Char.ofNat 12

/-- The word-character class `\w` at its ASCII meaning. -/
def is_word_char (c : Char) : Bool :=
  c.isAlphanum || c == '_'

/-- Lowercase an entire character list (`str.lower`). -/
def lower_chars (l : List Char) : List Char := l.map ascii_lower

/-- Lowercase a string (`str.lower`). -/
def lower_str (s : String) : String := String.mk (lower_chars s.data)

/-! ## Whitespace collapsing and stripping -/

/-- `re.sub(r'\s+', ' ', text)`: every maximal run of whitespace
becomes a single space.  Processed from the right: a whitespace
character extends the run that follows it (whose collapse already
begins with the single space `' '`) or starts a new single-space
run. -/
def collapse_ws : List Char → List Char
  | [] => []
  | c :: rest =>
    let r := collapse_ws rest
    if is_space_char c then
      match r with
      | ' ' :: _ => r
      | _ => ' ' :: r
    else c :: r

/-- `str.strip()`: drop leading and trailing whitespace. -/
def strip_ws (l : List Char) : List Char :=
  ((l.dropWhile is_space_char).reverse.dropWhile is_space_char).reverse

/-! ## `_clean_duplicated_text` -/

/-- One step of the scan for `re.sub(r'(\b\w+\b)\s+\1', r'\1', text,
flags=re.I)`.  At each position we try to match a whole word (a `\b`
boundary before it, witnessed by `prev`, and maximality giving the
boundary after it), then one or more whitespace characters, then the
same word again case-insensitively (the back-reference carries no
boundary of its own).  Greediness is deterministic here: `\b\w+\b`
must take the maximal word run, and shortening `\s+` can never help
because the back-reference starts with a word character.  On a match
the replacement is the captured word and scanning resumes after the
match (`prev` then being the final, word, character of the
back-reference); otherwise the scan advances one character.  `fuel`
bounds the recursion; every step consumes at least one character, so
`fuel = length` is enough. -/
def dedup_scan (fuel : Nat) (prev : Option Char) (l : List Char) : List Char :=
  match fuel, l with
  | 0, l => l
  | _ + 1, [] => []
  | fuel + 1, c :: rest =>
    let boundary := match prev with
      | none => true
      | some p => !is_word_char p
    if is_word_char c && boundary then
      let w := c :: rest.takeWhile is_word_char
      let afterw := rest.dropWhile is_word_char
      let sp := afterw.takeWhile is_space_char
      let aftersp := afterw.dropWhile is_space_char
      if sp ≠ [] && (lower_chars w).isPrefixOf (lower_chars aftersp) then
        w ++ dedup_scan fuel (some (w.getLast (by simp [w])))
          (aftersp.drop w.length)
      else
        c :: dedup_scan fuel (some c) rest
    else
      c :: dedup_scan fuel (some c) rest

/-- `_clean_duplicated_text`: replace `/` with spaces, collapse
whitespace runs, strip the ends, then remove an immediately repeated
word (case-insensitively) in a single left-to-right `re.sub` pass. -/
def clean_duplicated_text (s : String) : String :=
  let slashless := s.data.map (fun c => if c == '/' then ' ' else c)
  let collapsed := strip_ws (collapse_ws slashless)
  String.mk (dedup_scan collapsed.length none collapsed)

/-! ## The acai-folding step of `_extract_relevant_gql_details` -/

/-- Combining cedilla U+0327. -/
def comb_cedilla : Char := Char.ofNat 0x327
/-- Combining acute accent U+0301. -/
def comb_acute : Char := Char.ofNat 0x301
/-- Combining diaeresis U+0308. -/
def comb_diaeresis : Char := Char.ofNat 0x308
/-- Combining grave accent U+0300. -/
def comb_grave : Char := Char.ofNat 0x300

/-- Canonical decompositions of the precomposed characters the source
handles (its comment: after NFD, c-cedilla becomes `c` + U+0327 and
i-acute becomes `i` + U+0301).  This table models
`unicodedata.normalize('NFD', ·)` exactly on strings built from ASCII
characters, these precomposed characters, and combining marks whose
canonical order is already correct — which covers every string the
theorems below mention. -/
def nfd_decompose (c : Char) : List Char :=
  if c == Char.ofNat 0xE7 then ['c', comb_cedilla]        -- c-cedilla
  else if c == Char.ofNat 0xC7 then ['C', comb_cedilla]
  else if c == Char.ofNat 0xED then ['i', comb_acute]     -- i-acute
  else if c == Char.ofNat 0xCD then ['I', comb_acute]
  else if c == Char.ofNat 0xEF then ['i', comb_diaeresis] -- i-diaeresis
  else if c == Char.ofNat 0xEC then ['i', comb_grave]     -- i-grave
  else if c == Char.ofNat 0xE1 then ['a', comb_acute]     -- a-acute
  else if c == Char.ofNat 0xE9 then ['e', comb_acute]     -- e-acute
  else [c]

/-- NFD over the modelled repertoire. -/
def nfd (l : List Char) : List Char := l.flatMap nfd_decompose

/-- Canonical composition of a base character with a following
combining mark, the inverse of `nfd_decompose`. -/
def nfc_compose (b m : Char) : Option Char :=
  if b == 'c' && m == comb_cedilla then some (Char.ofNat 0xE7)
  else if b == 'C' && m == comb_cedilla then some (Char.ofNat 0xC7)
  else if b == 'i' && m == comb_acute then some (Char.ofNat 0xED)
  else if b == 'I' && m == comb_acute then some (Char.ofNat 0xCD)
  else if b == 'i' && m == comb_diaeresis then some (Char.ofNat 0xEF)
  else if b == 'i' && m == comb_grave then some (Char.ofNat 0xEC)
  else if b == 'a' && m == comb_acute then some (Char.ofNat 0xE1)
  else if b == 'e' && m == comb_acute then some (Char.ofNat 0xE9)
  else none

/-- NFC over the modelled repertoire: compose a base with a following
mark whenever a precomposed character exists (a composed character may
absorb at most the marks of the table; a second identical mark stays,
exactly as in real NFC).  `fuel ≥ length` suffices: every step
shortens the list. -/
def nfc_aux (fuel : Nat) (l : List Char) : List Char :=
  match fuel, l with
  | 0, l => l
  | _ + 1, [] => []
  | _ + 1, [c] => [c]
  | fuel + 1, b :: m :: rest =>
    match nfc_compose b m with
    | some c => nfc_aux fuel (c :: rest)
    | none => b :: nfc_aux fuel (m :: rest)

def nfc (l : List Char) : List Char := nfc_aux l.length l

/-- Does `c` match the character class `[aA]` under `re.IGNORECASE`? -/
def matches_aA (c : Char) : Bool := c == 'a' || c == 'A'

/-- Does `c` match `[çc]` under `re.IGNORECASE` (so also `C` and
C-cedilla)? -/
def matches_cC (c : Char) : Bool :=
  c == 'c' || c == 'C' || c == Char.ofNat 0xE7 || c == Char.ofNat 0xC7

/-- Does `c` match `[iI]` under `re.IGNORECASE`? -/
def matches_iI (c : Char) : Bool := c == 'i' || c == 'I'

/-- Try to match the pattern `[aA][çc]̧?[aA][iI]́?` at the
head of `l`; return the remainder after the match.  Each optional
combining mark can be taken greedily without backtracking since the
character that follows it in the pattern can never match the mark. -/
def acai_match : List Char → Option (List Char)
  | c1 :: rest1 =>
    if matches_aA c1 then
      match rest1 with
      | c2 :: rest2 =>
        if matches_cC c2 then
          let rest3 := match rest2 with
            | m :: r => if m == comb_cedilla then r else rest2
            | [] => rest2
          match rest3 with
          | c3 :: rest4 =>
            if matches_aA c3 then
              match rest4 with
              | c4 :: rest5 =>
                if matches_iI c4 then
                  match rest5 with
                  | m :: r => if m == comb_acute then some r else some rest5
                  | [] => some []
                else none
              | [] => none
            else none
          | [] => none
        else none
      | [] => none
    else none
  | [] => none

/-- `re.sub` over the acai pattern: leftmost non-overlapping matches
are replaced by `Acai`; on failure the scan advances one character.
`fuel ≥ length` suffices since every step consumes at least one
character. -/
def acai_sub (fuel : Nat) (l : List Char) : List Char :=
  match fuel, l with
  | 0, l => l
  | _ + 1, [] => []
  | fuel + 1, c :: rest =>
    match acai_match (c :: rest) with
    | some remainder => 'A' :: 'c' :: 'a' :: 'i' :: acai_sub fuel remainder
    | none => c :: acai_sub fuel rest

/-- The acai-normalization step of `_extract_relevant_gql_details`:
NFD-decompose, replace every variant of the acai word family by
`Acai`, recompose to NFC. -/
def fold_diacritic_variant (s : String) : String :=
  String.mk (nfc (acai_sub (nfd s.data).length (nfd s.data)))

/-! ## Data model

A raw snapshot is the inner `raw_data_by_locale` mapping: locale name
to locale record.  Editions and locale records carry the fixed schema
of `_extract_relevant_gql_details` / `_fetch_editions_for_locale`,
with `Option String` fields (`none` = key absent).  The `descr` field
models the mis-named `description` key the Normalization Service may
emit. -/

structure Edition where
  id : Option String := none
  name : Option String := none
  flavor : Option String := none
  flavor_description : Option String := none
  descr : Option String := none
  color : Option String := none
  image_url : Option String := none
  alt_text : Option String := none
  product_url : Option String := none
  deriving DecidableEq, Repr

structure Country where
  flag : Option String := none
  editions : List Edition := []
  flag_url : Option String := none
  deriving DecidableEq, Repr

/-- `raw_data_by_locale`: a Python dict, locale name to record. -/
abbrev Snapshot := List (String × Country)

/-- The preserved per-product fields of the product side-map. -/
structure Preserved where
  color : Option String := none
  image_url : Option String := none
  alt_text : Option String := none
  product_url : Option String := none
  deriving DecidableEq, Repr

/-- Python dict assignment `m[k] = v`: overwrite in place if the key
exists, else append. -/
def dict_insert {α : Type} (m : List (String × α)) (k : String) (v : α) :
    List (String × α) :=
  if m.any (fun p => p.1 == k) then
    m.map (fun p => if p.1 == k then (k, v) else p)
  else m ++ [(k, v)]

/-- Python dict lookup (first match; dict keys are unique). -/
def assoc_get {α : Type} (m : List (String × α)) (k : String) : Option α :=
  match m.find? (fun p => p.1 == k) with
  | some p => some p.2
  | none => none

/-- All editions of a snapshot, in iteration order. -/
def snap_editions : Snapshot → List Edition
  | [] => []
  | (_, c) :: rest => c.editions ++ snap_editions rest

/-- The locale keys of a snapshot, in iteration order. -/
def snap_keys (s : Snapshot) : List String := s.map Prod.fst

/-! ## Snapshot Differ (`compare_raw_data_and_generate_changelog`)

Only the pure comparison of the two parsed `raw_data_by_locale`
mappings is modelled; reading and parsing the two files (and the
fail-open behaviour on a parse error) stay outside the embedding. -/

structure DiffSummary where
  changed : Bool
  added : List String
  removed : List String
  updated : List String
  deriving DecidableEq, Repr

/-- The comparison core of `compare_raw_data_and_generate_changelog`:
three sorted lists of locale keys and the `changed` flag. -/
def compare_raw_data (new_data old_data : Snapshot) : DiffSummary :=
  let added := List.insertionSort (· ≤ ·)
    ((snap_keys new_data).filter (fun c => (assoc_get old_data c).isNone))
  let removed := List.insertionSort (· ≤ ·)
    ((snap_keys old_data).filter (fun c => (assoc_get new_data c).isNone))
  let updated := List.insertionSort (· ≤ ·)
    ((snap_keys new_data).filter (fun c =>
      match assoc_get old_data c, assoc_get new_data c with
      | some oldc, some newc => decide ¬(oldc = newc)
      | _, _ => false))
  { changed := !(added.isEmpty && updated.isEmpty && removed.isEmpty),
    added := added, removed := removed, updated := updated }

/-! ## Manual Override Engine (`_apply_data_fixes`) -/

/-- The three field names the override table targets. -/
inductive FixField
  | name
  | flavor
  | flavor_description
  deriving DecidableEq, Repr

def Edition.getField (e : Edition) : FixField → Option String
  | .name => e.name
  | .flavor => e.flavor
  | .flavor_description => e.flavor_description

def Edition.setField (e : Edition) : FixField → String → Edition
  | .name, v => { e with name := some v }
  | .flavor, v => { e with flavor := some v }
  | .flavor_description, v => { e with flavor_description := some v }

/-- An override rule (one entry of `DATA_FIXES`). -/
structure FixRule where
  id : String
  field : FixField
  search : String
  replace : String
  deriving DecidableEq, Repr

/-- `str.replace(search, repl)`: replace every occurrence,
left-to-right, non-overlapping, case-sensitively.  For an empty
search string Python inserts the replacement before every character
and at the end, which the first branch reproduces.  `fuel ≥ length`
suffices since every step of the scan consumes at least one
character. -/
def replace_all_aux (fuel : Nat) (search repl : List Char) (t : List Char) :
    List Char :=
  match fuel, t with
  | 0, t => t
  | _ + 1, [] => []
  | fuel + 1, c :: rest =>
    if search.isPrefixOf (c :: rest) then
      repl ++ replace_all_aux fuel search repl ((c :: rest).drop search.length)
    else
      c :: replace_all_aux fuel search repl rest

def replace_all (search repl t : List Char) : List Char :=
  if search.isEmpty then repl ++ t.flatMap (fun c => [c] ++ repl)
  else replace_all_aux t.length search repl t

/-- Is the lowercase list `searchL` a prefix of `t` up to ASCII case? -/
def ci_prefix : List Char → List Char → Bool
  | [], _ => true
  | _ :: _, [] => false
  | a :: as_, b :: bs => a == ascii_lower b && ci_prefix as_ bs

/-- `re.sub(re.escape(search), repl, t, flags=re.IGNORECASE)` for the
literal, group-free search and replacement strings of the override
table: replace every case-insensitive occurrence, left-to-right,
non-overlapping.  `searchL` is the already-lowercased search text.
Behaviour for an empty search (never used by `DATA_FIXES`) follows
`re.sub`'s empty-match rule, inserting the replacement at every
position. -/
def replace_ci_aux (fuel : Nat) (searchL repl : List Char) (t : List Char) :
    List Char :=
  match fuel, t with
  | 0, t => t
  | _ + 1, [] => []
  | fuel + 1, c :: rest =>
    if ci_prefix searchL (c :: rest) then
      repl ++ replace_ci_aux fuel searchL repl ((c :: rest).drop searchL.length)
    else
      c :: replace_ci_aux fuel searchL repl rest

def replace_ci (search repl t : List Char) : List Char :=
  if search.isEmpty then repl ++ t.flatMap (fun c => [c] ++ repl)
  else replace_ci_aux t.length (lower_chars search) repl t

/-- Python `needle.lower() in hay.lower()`: case-insensitive
substring containment (`needleL` already lowercased). -/
def contains_ci_aux : List Char → List Char → Bool
  | needleL, [] => needleL.isEmpty
  | needleL, c :: rest => ci_prefix needleL (c :: rest) || contains_ci_aux needleL rest

def contains_ci (needle hay : String) : Bool :=
  contains_ci_aux (lower_chars needle.data) hay.data

/-- Outcome of one override rule, modelling the entries appended to
`applied_fixes` / `skipped_fixes`. -/
inductive FixOutcome
  | appliedFix (field : FixField) (id search repl : String)
  | notApplicable (field : FixField) (id search current : String)
  | notFound (id : String)
  deriving DecidableEq, Repr

/-- The body run on the edition whose `id` matches the rule:
case-insensitive containment test on `edition.get(field, "")`, then a
case-sensitive `str.replace` — overridden by a case-insensitive
`re.sub` when the search text is not entirely lower-case. -/
def fix_edition (fx : FixRule) (e : Edition) : Edition × FixOutcome :=
  let current := (e.getField fx.field).getD ""
  if contains_ci fx.search current then
    let cs := replace_all fx.search.data fx.replace.data current.data
    let nv :=
      if lower_str fx.search ≠ fx.search then
        replace_ci fx.search.data fx.replace.data current.data
      else cs
    (e.setField fx.field (String.mk nv),
      .appliedFix fx.field fx.id fx.search fx.replace)
  else
    (e, .notApplicable fx.field fx.id fx.search current)

/-- Scan a locale's edition list for the first edition whose id
matches the rule; `none` when there is no match. -/
def fix_in_editions (fx : FixRule) : List Edition → Option (List Edition × FixOutcome)
  | [] => none
  | e :: es =>
    if e.id == some fx.id then
      let r := fix_edition fx e
      some (r.1 :: es, r.2)
    else
      match fix_in_editions fx es with
      | some (es', r) => some (e :: es', r)
      | none => none

/-- Apply one rule to the whole snapshot: locales in iteration order,
stop at the first matching edition; a rule whose id matches nowhere
reports `notFound`. -/
def fix_in_snapshot (fx : FixRule) : Snapshot → Snapshot × FixOutcome
  | [] => ([], .notFound fx.id)
  | (n, c) :: rest =>
    match fix_in_editions fx c.editions with
    | some (es', r) => ((n, { c with editions := es' }) :: rest, r)
    | none =>
      let r := fix_in_snapshot fx rest
      ((n, c) :: r.1, r.2)

/-- `_apply_data_fixes`: rules in table order; outcomes split into the
applied and skipped report lists exactly as the source appends them. -/
def apply_data_fixes (d : Snapshot) :
    List FixRule → Snapshot × List FixOutcome × List FixOutcome
  | [] => (d, [], [])
  | fx :: rest =>
    let s1 := fix_in_snapshot fx d
    let s2 := apply_data_fixes s1.1 rest
    match s1.2 with
    | .appliedFix f i s t => (s2.1, .appliedFix f i s t :: s2.2.1, s2.2.2)
    | r => (s2.1, s2.2.1, r :: s2.2.2)

/-! ## Strip/Side-Map Extractor (`_prepare_data_for_ai`) -/

/-- The characters stripped from `flavor_description` before the
external call: `re.sub(r'[#*@$^<>[\]{}|\\/`~!]', ' ', text)`. -/
def special_blacklist : List Char :=
  ['#', '*', '@', '$', '^', '<', '>', '[', ']',
   Char.ofNat 123, Char.ofNat 125, '|', '\\', '/', Char.ofNat 96, '~', '!']

/-- The pre-AI text cleanup of `_prepare_data_for_ai`: blacklist
characters become spaces, whitespace runs collapse, ends are
stripped. -/
def clean_special_chars (s : String) : String :=
  String.mk (strip_ws (collapse_ws
    (s.data.map (fun c => if c ∈ special_blacklist then ' ' else c))))

/-- The preserved fields copied into the product side-map (read with
`edition.get`, so an absent key is stored as `none`, Python's
`None`). -/
def prep_preserved (e : Edition) : Preserved :=
  { color := e.color, image_url := e.image_url,
    alt_text := e.alt_text, product_url := e.product_url }

/-- Per-edition stripping: clean `flavor_description` when present and
non-empty (Python truthiness), then delete the four preserved keys. -/
def prep_edition (e : Edition) : Edition :=
  let e1 := match e.flavor_description with
    | some t => if t ≠ "" then { e with flavor_description := some (clean_special_chars t) } else e
    | none => e
  { e1 with color := none, image_url := none, alt_text := none, product_url := none }

/-- Record each edition with a truthy id in the product side-map, in
iteration order (`product_details_map[product_id] = {...}`). -/
def add_editions_to_map (pm : List (String × Preserved)) :
    List Edition → List (String × Preserved)
  | [] => pm
  | e :: es =>
    let pm' := match e.id with
      | some i => if i ≠ "" then dict_insert pm i (prep_preserved e) else pm
      | none => pm
    add_editions_to_map pm' es

/-- The per-locale stripped record: `flag_url` deleted, editions
stripped. -/
def prep_country (c : Country) : Country :=
  { c with flag_url := none, editions := c.editions.map prep_edition }

/-- The locale traversal of `_prepare_data_for_ai`, threading the
product side-map through the locales in iteration order. -/
def prepare_aux : Snapshot → List (String × Preserved) →
    Snapshot × List (String × Preserved) × List (String × Option String)
  | [], pm => ([], pm, [])
  | (n, c) :: rest, pm =>
    let pm' := add_editions_to_map pm c.editions
    let r := prepare_aux rest pm'
    ((n, prep_country c) :: r.1, r.2.1, (n, c.flag_url) :: r.2.2)

/-- `_prepare_data_for_ai`: returns the stripped payload, the product
side-map and the locale side-map. -/
def prepare_data_for_ai (s : Snapshot) :
    Snapshot × List (String × Preserved) × List (String × Option String) :=
  prepare_aux s []

/-- Modelled from the spec's round-trip law (§8), per-edition step:
restore the four preserved fields of an edition from the product
side-map entry of its id. -/
def merge_back_edition (pm : List (String × Preserved)) (e : Edition) : Edition :=
  match e.id with
  | some i =>
    match assoc_get pm i with
    | some pr => { e with color := pr.color, image_url := pr.image_url,
                          alt_text := pr.alt_text, product_url := pr.product_url }
    | none => e
  | none => e

/-- Modelled from the spec's round-trip law (§8), per-locale step:
restore `flag_url` from the locale side-map and the editions from the
product side-map. -/
def merge_back_country (pm : List (String × Preserved))
    (cm : List (String × Option String)) (p : String × Country) :
    String × Country :=
  let c := p.2
  let c1 := match assoc_get cm p.1 with
    | some fu => { c with flag_url := fu }
    | none => c
  (p.1, { c1 with editions := c1.editions.map (merge_back_edition pm) })

/-- Modelled from the spec's round-trip law (§8): merge the two
side-maps back into the stripped payload field-for-field — each
locale's `flag_url` from the locale map, each edition's four
preserved fields from the product map, everything else untouched.
This is the specification-side merge the round-trip claim compares
against, not a function of the source. -/
def merge_back (s : Snapshot) (pm : List (String × Preserved))
    (cm : List (String × Option String)) : Snapshot :=
  s.map (merge_back_country pm cm)

/-! ## Normalization Gateway (`normalize_with_gemini`)

The external call is abstracted as an oracle mapping the attempt
number (1-based) to that attempt's outcome.  `api_error transient`
models `google_exceptions` with `transient = true` exactly when the
error message contains both `"503"` and `"UNAVAILABLE"`. -/

inductive GeminiOutcome (α : Type)
  | success (val : α)
  | json_decode_error
  | api_error (transient : Bool)
  | value_error
  deriving DecidableEq, Repr

/-- The attempt loop of `normalize_with_gemini` (`max_retries = 3`,
`retry_delay = 60`): besides the parsed result it returns the number
of the last attempt performed and the list of cooldown sleeps taken.
`fuel` counts the remaining loop iterations; the function is entered
with `fuel = 3`, `attempt = 1`. -/
def gemini_loop {α : Type} (oracle : Nat → GeminiOutcome α) :
    Nat → Nat → Option α × Nat × List Nat
  | 0, attempt => (none, attempt - 1, [])
  | fuel + 1, attempt =>
    match oracle attempt with
    | .success v => (some v, attempt, [])
    | .json_decode_error => (none, attempt, [])
    | .value_error => (none, attempt, [])
    | .api_error transient =>
      if transient && attempt < 3 then
        let r := gemini_loop oracle fuel (attempt + 1)
        (r.1, r.2.1, 60 :: r.2.2)
      else (none, attempt, [])

/-- `normalize_with_gemini`, given the per-attempt oracle. -/
def normalize_with_gemini {α : Type} (oracle : Nat → GeminiOutcome α) :
    Option α × Nat × List Nat :=
  gemini_loop oracle 3 1

/-! ## Rehydrator (`_rehydrate_ai_response`) -/

/-- `str.capitalize()`: first character uppercased, the rest
lowercased (ASCII). -/
def capitalize_str (s : String) : String :=
  match s.data with
  | [] => ""
  | c :: rest => String.mk (ascii_upper c :: rest.map ascii_lower)

/-- `_capitalize_second_word`: split on `-`, capitalize the part at
index 1 when it exists, rejoin. -/
def capitalize_second_word (s : String) : String :=
  match s.splitOn "-" with
  | p0 :: p1 :: rest => String.intercalate "-" (p0 :: capitalize_str p1 :: rest)
  | _ => s

/-- The whitelist of `re.sub(r'[^a-zA-Z0-9:%\.,!? ]', '', desc)`:
ASCII letters, digits, and `:`, `%`, `.`, `,`, `!`, `?`, space.
Everything else — accented letters included — is removed. -/
def allowed_desc_char (c : Char) : Bool :=
  c.isAlpha || c.isDigit || c == ':' || c == '%' || c == '.' ||
  c == ',' || c == '!' || c == '?' || c == ' '

/-- Step 1 of the rehydration cleanup: keep only whitelisted
characters. -/
def strip_desc_chars (s : String) : String :=
  String.mk (s.data.filter allowed_desc_char)

def punct_char (c : Char) : Bool :=
  c == '.' || c == ',' || c == '!' || c == '?'

/-- `re.sub(r'\s+([.,!?])', r'\1', desc)`: delete whitespace runs that
directly precede punctuation.  A whitespace character survives exactly
when the processed tail does not begin with punctuation — a right fold
reproduces the left-to-right `re.sub` because a run is deleted iff the
first non-whitespace character after it is punctuation. -/
def remove_space_before_punct : List Char → List Char
  | [] => []
  | c :: rest =>
    let r := remove_space_before_punct rest
    if is_space_char c then
      match r with
      | p :: _ => if punct_char p then r else c :: r
      | [] => c :: r
    else c :: r

/-- `re.sub(r'([.,!?])(?=[a-zA-Z0-9])', r'\1 ', desc)`: insert a space
after punctuation directly followed by an ASCII alphanumeric; the
lookahead is not consumed, so scanning resumes at that character. -/
def add_space_after_punct : List Char → List Char
  | [] => []
  | [c] => [c]
  | c :: d :: rest =>
    if punct_char c && d.isAlphanum then
      c :: ' ' :: add_space_after_punct (d :: rest)
    else
      c :: add_space_after_punct (d :: rest)

/-- `if desc.endswith('.'): desc = desc[:-1].strip()`. -/
def strip_trailing_period (l : List Char) : List Char :=
  match l.reverse with
  | '.' :: rest => strip_ws rest.reverse
  | _ => l

/-- `re.sub(r'\bWORD\b', repl, t)` for a literal word of word
characters: case-sensitive whole-word replacement, left-to-right,
non-overlapping.  `prev_word` tracks whether the previous character is
a word character (the `\b` before the match); the boundary after the
match requires the character following the word to be a non-word
character or the end.  After a replacement the scan resumes with
`prev_word = true` since the matched word ends in a word character.
`fuel ≥ length` suffices: each step consumes at least one
character. -/
def replace_word_aux (fuel : Nat) (w repl : List Char) :
    Bool → List Char → List Char
  | _, [] => []
  | prev_word, c :: rest =>
    match fuel with
    | 0 => c :: rest
    | fuel + 1 =>
      let t := c :: rest
      let after := t.drop w.length
      if !prev_word && w.isPrefixOf t &&
          (match after with
           | [] => true
           | a :: _ => !is_word_char a) then
        repl ++ replace_word_aux fuel w repl true after
      else
        c :: replace_word_aux fuel w repl (is_word_char c) rest

def replace_word (w repl : String) (t : List Char) : List Char :=
  replace_word_aux t.length w.data repl.data false t

/-- The full cleanup `_rehydrate_ai_response` applies to a present
`flavor_description`: whitelist strip, punctuation-spacing repair,
whitespace collapse and strip, trailing-period strip, then the three
sugars/sugar word replacements in source order. -/
def rehydrate_clean_description (s : String) : String :=
  let d1 := s.data.filter allowed_desc_char
  let d2 := remove_space_before_punct d1
  let d3 := add_space_after_punct d2
  let d4 := strip_ws (collapse_ws d3)
  let d5 := strip_trailing_period d4
  let d6 := replace_word "Sugars" "Sugar" d5
  let d7 := replace_word "sugars" "sugar" d6
  let d8 := replace_word "SUGARS" "Sugar" d7
  String.mk d8

/-- The anomalies `_rehydrate_ai_response` reports (as
`logging.warning` calls in the source; the spec's §4.6 abstracts them
as the returned anomaly list). -/
inductive Anomaly
  | country_missing (name : String)
  | product_missing (id : Option String)
  | field_renamed (id : Option String)
  deriving DecidableEq, Repr

/-- Stage 1 of per-edition rehydration: pop the id and merge the
preserved fields back, or report `product_missing` when the popped id
is falsy or not in the side-map. -/
def rehydrate_merge (pm : List (String × Preserved)) (e : Edition) :
    Edition × List Anomaly :=
  let pid := e.id
  let e0 := { e with id := none }
  match pid with
  | some i =>
    if i ≠ "" then
      match assoc_get pm i with
      | some pr =>
        ({ e0 with color := pr.color, image_url := pr.image_url,
                   alt_text := pr.alt_text, product_url := pr.product_url }, [])
      | none => (e0, [.product_missing pid])
    else (e0, [.product_missing pid])
  | none => (e0, [.product_missing pid])

/-- Stage 2: rename a `description` the service emitted where
`flavor_description` is absent, reporting a `field_renamed` anomaly
for the popped id. -/
def rehydrate_rename (e : Edition) (pid : Option String) :
    Edition × List Anomaly :=
  if e.descr.isSome && e.flavor_description.isNone then
    ({ e with flavor_description := e.descr, descr := none },
     [.field_renamed pid])
  else (e, [])

/-- Stage 3: re-capitalize the flavor's second word and clean a
present `flavor_description`. -/
def rehydrate_finish (e : Edition) : Edition :=
  let e3 := match e.flavor with
    | some f => { e with flavor := some (capitalize_second_word f) }
    | none => e
  match e3.flavor_description with
  | some d => { e3 with flavor_description := some (rehydrate_clean_description d) }
  | none => e3

/-- Per-edition rehydration, the three stages of
`_rehydrate_ai_response`'s edition loop in source order. -/
def rehydrate_edition (pm : List (String × Preserved)) (e : Edition) :
    Edition × List Anomaly :=
  let merged := rehydrate_merge pm e
  let renamed := rehydrate_rename merged.1 e.id
  (rehydrate_finish renamed.1, merged.2 ++ renamed.2)

def rehydrate_editions (pm : List (String × Preserved)) :
    List Edition → List Edition × List Anomaly
  | [] => ([], [])
  | e :: es =>
    let r := rehydrate_edition pm e
    let rs := rehydrate_editions pm es
    (r.1 :: rs.1, r.2 ++ rs.2)

/-- `_rehydrate_ai_response`: per locale, merge the locale side-map
entry (or report `country_missing`), then rehydrate the editions. -/
def rehydrate_ai_response (resp : Snapshot) (pm : List (String × Preserved))
    (cm : List (String × Option String)) : Snapshot × List Anomaly :=
  match resp with
  | [] => ([], [])
  | (n, c) :: rest =>
    let merged : Country × List Anomaly :=
      match assoc_get cm n with
      | some fu => ({ c with flag_url := fu }, [])
      | none => (c, [.country_missing n])
    let es := rehydrate_editions pm c.editions
    let rest' := rehydrate_ai_response rest pm cm
    ((n, { merged.1 with editions := es.1 }) :: rest'.1,
     merged.2 ++ es.2 ++ rest'.2)

/-! ## Derived predicates and concrete fixtures -/

/-- Python truthiness of `edition.get("id")`: present and non-empty. -/
def good_id (e : Edition) : Bool :=
  match e.id with
  | some i => i ≠ ""
  | none => false

/-- The side-map key of an edition (total; meaningful under
`good_id`). -/
def edition_key (e : Edition) : String := e.id.getD ""

/-- The product side-map entry an edition contributes. -/
def map_entry (e : Edition) : String × Preserved :=
  (edition_key e, prep_preserved e)

/-- Does an association list already hold a key? -/
def has_key {α : Type} (m : List (String × α)) (k : String) : Bool :=
  m.any (fun p => p.1 == k)

/-- An edition the Rehydrator must rename: the service emitted
`description` for this entity id and no `flavor_description`. -/
def rename_needed (i : String) (e : Edition) : Bool :=
  e.id == some i && e.descr.isSome && e.flavor_description.isNone

/-- A `field_renamed` anomaly for this entity id. -/
def rename_anomaly (i : String) (a : Anomaly) : Bool :=
  a == .field_renamed (some i)

/-- The acai word with a second, stacked combining acute: the NFC
string `a, c-cedilla, a, i-acute, U+0301`. -/
def acai_stacked : String := String.mk ("açaí".data ++ [comb_acute])

/-- A snapshot whose single `flavor_description` contains a character
(`*`) that the pre-AI cleanup deletes. -/
def c1_bad_snap : Snapshot :=
  [("Austria",
    { flag := some "AT", flag_url := some "flags/at.svg",
      editions := [{ id := some "e1", name := some "The Summer Edition",
                     flavor := some "Apricot", flavor_description := some "a*b",
                     color := some "#BE5050", image_url := some "img1",
                     alt_text := some "can", product_url := some "url1" }] })]

/-- A snapshot already clean under the pre-AI cleanup, with unique
non-empty ids and every preserved field present. -/
def c1_good_snap : Snapshot :=
  [("Austria",
    { flag := some "AT", flag_url := some "flags/at.svg",
      editions := [{ id := some "e1", name := some "The Summer Edition",
                     flavor := some "Apricot",
                     flavor_description := some "Apricot taste.",
                     color := some "#BE5050", image_url := some "img1",
                     alt_text := some "can", product_url := some "url1" }] }),
   ("Germany",
    { flag := some "DE", flag_url := some "flags/de.svg",
      editions := [{ id := some "e2", name := some "The Pink Edition",
                     flavor := some "Grapefruit",
                     flavor_description := some "Pink grapefruit",
                     color := some "#FF00FF", image_url := some "img2",
                     alt_text := some "pink can", product_url := some "url2" }] })]

/-- A snapshot with a duplicated entity id across its editions. -/
def dup_id_snap : Snapshot :=
  [("Austria",
    { flag := some "AT",
      editions := [{ id := some "x" }, { id := some "x" }] })]

/-- The claim's override rule: entity id `X`, field `flavor`, search
`Dragon Fruit`, replace `Curuba-Elderflower`. -/
def dragon_fix : FixRule :=
  { id := "X", field := .flavor,
    search := "Dragon Fruit", replace := "Curuba-Elderflower" }

/-- A snapshot holding the edition the rule targets. -/
def dragon_snap : Snapshot :=
  [("United Kingdom",
    { flag := some "GB", flag_url := some "flags/gb.svg",
      editions := [{ id := some "X", name := some "The Summer Edition",
                     flavor := some "Dragon Fruit Mix" }] })]

/-- `dragon_snap` after the rule fired. -/
def dragon_snap_fixed : Snapshot :=
  [("United Kingdom",
    { flag := some "GB", flag_url := some "flags/gb.svg",
      editions := [{ id := some "X", name := some "The Summer Edition",
                     flavor := some "Curuba-Elderflower Mix" }] })]

/-- A normalization-service response whose single edition carries a
`description` where `flavor_description` is absent. -/
def rename_resp : Snapshot :=
  [("Austria",
    { flag := some "AT",
      editions := [{ id := some "e1", name := some "The Summer Edition",
                     flavor := some "Apricot",
                     descr := some "Apricot taste" }] })]

/-- A rule whose search text is entirely lower-case, targeting a
field that contains it only in a different casing. -/
def apricot_fix : FixRule :=
  { id := "Y", field := .flavor, search := "apricot", replace := "Peach" }

/-- The edition `apricot_fix` targets: the containment test succeeds
case-insensitively, but the case-sensitive replacement finds no
occurrence. -/
def apricot_ed : Edition :=
  { id := some "Y", flavor := some "Apricot Mix" }

/-- The spec's differ example, new side: Austria unchanged, Germany
added. -/
def diff_new_snap : Snapshot :=
  [("Austria", { flag := some "AT", flag_url := some "flags/at.svg" }),
   ("Germany", { flag := some "DE", flag_url := some "flags/de.svg" })]

/-- The spec's differ example, old side: Austria only, textually
identical to the new side's Austria. -/
def diff_old_snap : Snapshot :=
  [("Austria", { flag := some "AT", flag_url := some "flags/at.svg" })]

/-! ## Theorems -/

/-- Claim C7 (code evaluated at the failing input): the spec demands
`_clean_duplicated_text` be idempotent, but the single left-to-right
`re.sub` pass resumes after each match, so on `"a a a"` one
application leaves `"a a"` while a second application yields `"a"`:
`f (f x) ≠ f x`. -/
theorem c7_clean_duplicated_text_not_idempotent :
    clean_duplicated_text "a a a" = "a a" ∧
    clean_duplicated_text (clean_duplicated_text "a a a") = "a" ∧
    clean_duplicated_text (clean_duplicated_text "a a a") ≠
      clean_duplicated_text "a a a" := by
  refine ⟨by decide, by decide, by decide⟩

/-- Claim C8 (amended): the acai fold is case-insensitive over the
known word family — `f "AÇAI" = f "açaí" = "Acai"` — and idempotent at
those inputs; full idempotence over all strings fails (see the
counterexample). -/
theorem c8_fold_diacritic_variant_amended :
    fold_diacritic_variant "AÇAI" = "Acai" ∧
    fold_diacritic_variant "açaí" = "Acai" ∧
    fold_diacritic_variant (fold_diacritic_variant "AÇAI") =
      fold_diacritic_variant "AÇAI" ∧
    fold_diacritic_variant (fold_diacritic_variant "açaí") =
      fold_diacritic_variant "açaí" := by
  refine ⟨by decide, by decide, by decide, by decide⟩

/-- Claim C8 (counterexample): with a second, stacked combining acute
after the word family, one application gives `Acaí` (the leftover mark
recomposes onto the replacement's final `i`) and a second application
folds that to `Acai`, so `f (f x) ≠ f x`. -/
theorem c8_fold_diacritic_variant_counterexample :
    fold_diacritic_variant (fold_diacritic_variant acai_stacked) ≠
      fold_diacritic_variant acai_stacked := by
  decide

/-- Helper: a non-transient first-attempt failure ends the run at
attempt 1 with no cooldown. -/
theorem gemini_fails_fast {α : Type} (oracle : Nat → GeminiOutcome α)
    (h : oracle 1 = .json_decode_error ∨ oracle 1 = .value_error ∨
      oracle 1 = .api_error false) :
    normalize_with_gemini oracle = (none, 1, []) := by
  rcases h with h | h | h <;> simp [normalize_with_gemini, gemini_loop, h]

/-- Helper: the loop never goes beyond attempt 3. -/
theorem gemini_at_most_three {α : Type} (oracle : Nat → GeminiOutcome α) :
    (normalize_with_gemini oracle).2.1 ≤ 3 := by
  cases h1 : oracle 1 <;>
    simp [normalize_with_gemini, gemini_loop, h1]
  case api_error t1 =>
    cases t1 <;> simp
    cases h2 : oracle 2 <;> simp [gemini_loop, h2]
    case api_error t2 =>
      cases t2 <;> simp
      cases h3 : oracle 3 <;> simp [gemini_loop, h3]

/-- Helper: three transient failures exhaust the attempts, with a
60-second cooldown before each of the two retries, and fail
definitively. -/
theorem gemini_exhausts {α : Type} (oracle : Nat → GeminiOutcome α)
    (h : ∀ i, 1 ≤ i → i ≤ 3 → oracle i = .api_error true) :
    normalize_with_gemini oracle = (none, 3, [60, 60]) := by
  have e1 := h 1 (by omega) (by omega)
  have e2 := h 2 (by omega) (by omega)
  have e3 := h 3 (by omega) (by omega)
  simp [normalize_with_gemini, gemini_loop, e1, e2, e3]

/-- Helper: every attempt before the final one failed with the
transient overload class — nothing else is ever retried. -/
theorem gemini_only_transient_retried {α : Type} (oracle : Nat → GeminiOutcome α) :
    ∀ i, 1 ≤ i → i < (normalize_with_gemini oracle).2.1 →
      oracle i = .api_error true := by
  intro i hi1 hi2
  cases h1 : oracle 1
  case success v1 =>
    simp [normalize_with_gemini, gemini_loop, h1] at hi2
    omega
  case json_decode_error =>
    simp [normalize_with_gemini, gemini_loop, h1] at hi2
    omega
  case value_error =>
    simp [normalize_with_gemini, gemini_loop, h1] at hi2
    omega
  case api_error t1 =>
    cases t1
    case false =>
      simp [normalize_with_gemini, gemini_loop, h1] at hi2
      omega
    case true =>
      cases h2 : oracle 2
      case success v2 =>
        simp [normalize_with_gemini, gemini_loop, h1, h2] at hi2
        have hi : i = 1 := by omega
        rw [hi, h1]
      case json_decode_error =>
        simp [normalize_with_gemini, gemini_loop, h1, h2] at hi2
        have hi : i = 1 := by omega
        rw [hi, h1]
      case value_error =>
        simp [normalize_with_gemini, gemini_loop, h1, h2] at hi2
        have hi : i = 1 := by omega
        rw [hi, h1]
      case api_error t2 =>
        cases t2
        case false =>
          simp [normalize_with_gemini, gemini_loop, h1, h2] at hi2
          have hi : i = 1 := by omega
          rw [hi, h1]
        case true =>
          cases h3 : oracle 3 <;>
            simp [normalize_with_gemini, gemini_loop, h1, h2, h3] at hi2 <;>
            (have hi : i = 1 ∨ i = 2 := by omega) <;>
            (rcases hi with hi | hi <;> rw [hi]) <;>
            first
              | rw [h1]
              | rw [h2]

/-- Claim C4: the Gateway retries only the transient
`503`/`UNAVAILABLE` failure class, performing at most 3 attempts (2
retries beyond the first) with a fixed 60-second cooldown before each
retry; any other failure class on an attempt ends the run immediately
with a definitive failure (`none`, no further attempts, no cooldown),
and exhausting all attempts on transient failures is also a
definitive failure. -/
theorem c4_normalize_with_gemini_retry_policy {α : Type}
    (oracle : Nat → GeminiOutcome α) :
    (normalize_with_gemini oracle).2.1 ≤ 3 ∧
    ((oracle 1 = .json_decode_error ∨ oracle 1 = .value_error ∨
        oracle 1 = .api_error false) →
      normalize_with_gemini oracle = (none, 1, [])) ∧
    ((∀ i, 1 ≤ i → i ≤ 3 → oracle i = .api_error true) →
      normalize_with_gemini oracle = (none, 3, [60, 60])) ∧
    (∀ i, 1 ≤ i → i < (normalize_with_gemini oracle).2.1 →
      oracle i = .api_error true) :=
  ⟨gemini_at_most_three oracle, gemini_fails_fast oracle,
   gemini_exhausts oracle, gemini_only_transient_retried oracle⟩

/-- Claim C4 witness: an oracle that is transiently overloaded on
every attempt exhausts all three attempts, sleeping 60 seconds twice,
and fails definitively. -/
theorem c4_witness :
    normalize_with_gemini (fun _ => GeminiOutcome.api_error (α := Unit) true) =
      (none, 3, [60, 60]) :=
  (c4_normalize_with_gemini_retry_policy
    (fun _ => GeminiOutcome.api_error (α := Unit) true)).2.2.1
    (fun _ _ _ => rfl)

/-- Helper: setting a field to the value it already holds is the
identity. -/
theorem setField_self (e : Edition) (f : FixField) (v : String)
    (h : e.getField f = some v) : e.setField f v = e := by
  cases f <;> cases e <;>
    simp only [Edition.getField] at h <;>
    simp [Edition.setField, h]

/-- Helper: a rule whose id matches no edition of the list leaves
`fix_in_editions` without a result. -/
theorem fix_in_editions_no_match (fx : FixRule) :
    ∀ es : List Edition, (∀ e ∈ es, e.id ≠ some fx.id) →
      fix_in_editions fx es = none := by
  intro es
  induction es with
  | nil => intro _; rfl
  | cons e es ih =>
    intro h
    have he : e.id ≠ some fx.id := h e (by simp)
    have : (e.id == some fx.id) = false := by
      simp [he]
    simp only [fix_in_editions, this, Bool.false_eq_true, if_false]
    rw [ih (fun e' he' => h e' (by simp [he']))]

/-- Helper: when every matching edition is left unchanged by the rule
body, the scan returns the list unchanged. -/
theorem fix_in_editions_preserve (fx : FixRule) :
    ∀ es : List Edition,
      (∀ e ∈ es, e.id = some fx.id → (fix_edition fx e).1 = e) →
      ∀ r, fix_in_editions fx es = some r → r.1 = es := by
  intro es
  induction es with
  | nil => intro _ r hr; cases hr
  | cons e es ih =>
    intro h r hr
    by_cases hid : (e.id == some fx.id) = true
    · simp only [fix_in_editions, hid, if_true] at hr
      have he : (fix_edition fx e).1 = e := h e (by simp) (by simpa using hid)
      injection hr with hr2
      subst hr2
      simp [he]
    · cases hfe : fix_in_editions fx es with
      | none =>
        simp only [fix_in_editions, hid, Bool.false_eq_true, if_false, hfe] at hr
        cases hr
      | some r' =>
        obtain ⟨es2, rr⟩ := r'
        simp only [fix_in_editions, hid, Bool.false_eq_true, if_false, hfe] at hr
        have he2 : es2 = es := ih (fun e2 he2 => h e2 (by simp [he2])) (es2, rr) hfe
        injection hr with hr2
        subst hr2
        simp [he2]

/-- Helper: structure-level consequence of `fix_in_editions_preserve`
for the whole snapshot. -/
theorem fix_in_snapshot_preserve (fx : FixRule) :
    ∀ d : Snapshot,
      (∀ e ∈ snap_editions d, e.id = some fx.id → (fix_edition fx e).1 = e) →
      (fix_in_snapshot fx d).1 = d := by
  intro d
  induction d with
  | nil => intro _; rfl
  | cons p rest ih =>
    intro h
    obtain ⟨n, c⟩ := p
    have hc : ∀ e ∈ c.editions, e.id = some fx.id → (fix_edition fx e).1 = e :=
      fun e he => h e (by simp [snap_editions, he])
    have hrest : ∀ e ∈ snap_editions rest, e.id = some fx.id →
        (fix_edition fx e).1 = e :=
      fun e he => h e (by simp [snap_editions, he])
    cases hfe : fix_in_editions fx c.editions with
    | none =>
      simp only [fix_in_snapshot, hfe]
      simp [ih hrest]
    | some r' =>
      obtain ⟨es2, rr⟩ := r'
      have he2 : es2 = c.editions :=
        fix_in_editions_preserve fx c.editions hc (es2, rr) hfe
      simp only [fix_in_snapshot, hfe]
      simp [he2]

/-- Helper: a rule whose id matches nowhere in the snapshot reports
`notFound` and leaves the snapshot untouched. -/
theorem fix_in_snapshot_not_found (fx : FixRule) :
    ∀ d : Snapshot, (∀ e ∈ snap_editions d, e.id ≠ some fx.id) →
      fix_in_snapshot fx d = (d, .notFound fx.id) := by
  intro d
  induction d with
  | nil => intro _; rfl
  | cons p rest ih =>
    intro h
    obtain ⟨n, c⟩ := p
    have hc : ∀ e ∈ c.editions, e.id ≠ some fx.id :=
      fun e he => h e (by simp [snap_editions, he])
    have hrest : ∀ e ∈ snap_editions rest, e.id ≠ some fx.id :=
      fun e he => h e (by simp [snap_editions, he])
    have hfe : fix_in_editions fx c.editions = none :=
      fix_in_editions_no_match fx c.editions hc
    simp only [fix_in_snapshot, hfe]
    simp [ih hrest]

/-- Claim C3: the Manual Override Engine handles each rule against the
first edition of the snapshot whose entity id matches; rules are
processed in table order (the patched snapshot of a rule feeds the
next); a rule whose entity id matches no edition yields a `notFound`
report entry and no mutation of the snapshot; and the claim's example
— search `Dragon Fruit`, replace `Curuba-Elderflower`, field
`flavor = "Dragon Fruit Mix"` — fires the case-insensitive regex
branch (the search text is not entirely lower-case) and yields
`flavor = "Curuba-Elderflower Mix"` with an `appliedFix` report
entry. -/
theorem c3_apply_data_fixes_behaviour :
    (∀ (fx : FixRule) (d : Snapshot),
      (∀ e ∈ snap_editions d, e.id ≠ some fx.id) →
      fix_in_snapshot fx d = (d, .notFound fx.id)) ∧
    (∀ (d : Snapshot) (fx : FixRule) (rest : List FixRule),
      (apply_data_fixes d (fx :: rest)).1 =
        (apply_data_fixes (fix_in_snapshot fx d).1 rest).1) ∧
    fix_in_snapshot dragon_fix dragon_snap =
      (dragon_snap_fixed,
       .appliedFix .flavor "X" "Dragon Fruit" "Curuba-Elderflower") := by
  refine ⟨fix_in_snapshot_not_found, ?_, by decide⟩
  intro d fx rest
  simp only [apply_data_fixes]
  cases (fix_in_snapshot fx d).2 <;> rfl

/-- Claim C3 witness: the not-found branch at a concrete snapshot
that holds no edition with the rule's id. -/
theorem c3_witness :
    fix_in_snapshot dragon_fix c1_good_snap =
      (c1_good_snap, .notFound "X") :=
  c3_apply_data_fixes_behaviour.1 dragon_fix c1_good_snap (by decide)

/-- Claim C10: when a rule's search text is entirely lower-case and
occurs in the targeted field only in a different casing, the
containment test passes but the case-sensitive `str.replace` finds no
occurrence, so the engine records an `appliedFix` report entry while
leaving the edition — and hence the snapshot — unchanged. -/
theorem c10_lowercase_rule_reports_applied_without_change :
    (∀ (fx : FixRule) (e : Edition) (v : String),
      e.getField fx.field = some v →
      lower_str fx.search = fx.search →
      contains_ci fx.search v = true →
      replace_all fx.search.data fx.replace.data v.data = v.data →
      fix_edition fx e = (e, .appliedFix fx.field fx.id fx.search fx.replace)) ∧
    (∀ (fx : FixRule) (d : Snapshot),
      (∀ e ∈ snap_editions d, e.id = some fx.id → (fix_edition fx e).1 = e) →
      (fix_in_snapshot fx d).1 = d) := by
  refine ⟨?_, fix_in_snapshot_preserve⟩
  intro fx e v hv hl hc hr
  unfold fix_edition
  rw [hv]
  simp only [Option.getD_some, hc, if_true]
  rw [if_neg (by simp [hl])]
  rw [hr]
  have hmk : String.mk v.data = v := rfl
  rw [hmk, setField_self e fx.field v hv]

/-- Claim C10 witness: the lower-case rule `apricot → Peach` against
`flavor = "Apricot Mix"`: reported applied, field unchanged. -/
theorem c10_witness :
    fix_edition apricot_fix apricot_ed =
      (apricot_ed, .appliedFix .flavor "Y" "apricot" "Peach") :=
  c10_lowercase_rule_reports_applied_without_change.1 apricot_fix apricot_ed
    "Apricot Mix" (by decide) (by decide) (by decide) (by decide)

/-- Helper: a key misses the association list exactly when it is not
among the keys. -/
theorem assoc_get_isNone {α : Type} (m : List (String × α)) (k : String) :
    (assoc_get m k).isNone = true ↔ k ∉ m.map Prod.fst := by
  unfold assoc_get
  cases hf : m.find? (fun q => q.1 == k) with
  | none =>
    simp only [Option.isNone_none, true_iff]
    rw [List.find?_eq_none] at hf
    simp only [List.mem_map]
    rintro ⟨q, hq, hk⟩
    exact absurd (by simp [hk]) (hf q hq)
  | some q =>
    simp only [Option.isNone_some, Bool.false_eq_true, false_iff, not_not]
    have hm := List.mem_of_find?_eq_some hf
    have hk := List.find?_some hf
    simp only [List.mem_map]
    exact ⟨q, hm, by simpa using hk⟩

/-- Helper: a successful lookup witnesses key membership. -/
theorem assoc_get_some_mem {α : Type} (m : List (String × α)) (k : String)
    (v : α) (h : assoc_get m k = some v) : k ∈ m.map Prod.fst := by
  by_contra hc
  rw [← assoc_get_isNone] at hc
  rw [h] at hc
  cases hc

/-- Helper: key membership yields a successful lookup. -/
theorem assoc_get_mem_some {α : Type} (m : List (String × α)) (k : String)
    (h : k ∈ m.map Prod.fst) : ∃ v, assoc_get m k = some v := by
  cases hg : assoc_get m k with
  | some v => exact ⟨v, rfl⟩
  | none =>
    have hn : (assoc_get m k).isNone = true := by rw [hg]; rfl
    exact absurd h ((assoc_get_isNone m k).mp hn)

/-- Helper: the boolean `changed` flag against the three emptiness
tests, in the source's operand order. -/
theorem changed_flag_iff (a u r : List String) :
    ((!(a.isEmpty && u.isEmpty && r.isEmpty)) = true) ↔
      (a ≠ [] ∨ r ≠ [] ∨ u ≠ []) := by
  cases a <;> cases u <;> cases r <;> simp

/-- Claim C2: for two present, parseable snapshots the differ returns
`changed = true` iff at least one of `added` (keys in new but not
prior), `removed` (keys in prior but not new), `updated` (keys in
both whose locale records differ structurally) is non-empty, and each
list of the summary is alphabetically sorted. -/
theorem c2_compare_raw_data_diff (new_data old_data : Snapshot) :
    ((compare_raw_data new_data old_data).changed = true ↔
      ((compare_raw_data new_data old_data).added ≠ [] ∨
       (compare_raw_data new_data old_data).removed ≠ [] ∨
       (compare_raw_data new_data old_data).updated ≠ [])) ∧
    (∀ c, c ∈ (compare_raw_data new_data old_data).added ↔
      c ∈ snap_keys new_data ∧ c ∉ snap_keys old_data) ∧
    (∀ c, c ∈ (compare_raw_data new_data old_data).removed ↔
      c ∈ snap_keys old_data ∧ c ∉ snap_keys new_data) ∧
    (∀ c, c ∈ (compare_raw_data new_data old_data).updated ↔
      ∃ cn co, assoc_get new_data c = some cn ∧
        assoc_get old_data c = some co ∧ cn ≠ co) ∧
    List.Sorted (· ≤ ·) (compare_raw_data new_data old_data).added ∧
    List.Sorted (· ≤ ·) (compare_raw_data new_data old_data).removed ∧
    List.Sorted (· ≤ ·) (compare_raw_data new_data old_data).updated := by
  refine ⟨?_, ?_, ?_, ?_, ?_, ?_, ?_⟩
  · exact changed_flag_iff _ _ _
  · intro c
    show c ∈ List.insertionSort (· ≤ ·)
        ((snap_keys new_data).filter (fun c => (assoc_get old_data c).isNone)) ↔ _
    rw [List.mem_insertionSort, List.mem_filter, assoc_get_isNone]
    rfl
  · intro c
    show c ∈ List.insertionSort (· ≤ ·)
        ((snap_keys old_data).filter (fun c => (assoc_get new_data c).isNone)) ↔ _
    rw [List.mem_insertionSort, List.mem_filter, assoc_get_isNone]
    rfl
  · intro c
    show c ∈ List.insertionSort (· ≤ ·)
        ((snap_keys new_data).filter (fun c =>
          match assoc_get old_data c, assoc_get new_data c with
          | some oldc, some newc => decide ¬(oldc = newc)
          | _, _ => false)) ↔ _
    rw [List.mem_insertionSort, List.mem_filter]
    constructor
    · rintro ⟨hmem, hp⟩
      cases ho : assoc_get old_data c with
      | none => rw [ho] at hp; cases hp
      | some co =>
        cases hn : assoc_get new_data c with
        | none => rw [ho, hn] at hp; cases hp
        | some cn =>
          rw [ho, hn] at hp
          simp only [decide_eq_true_eq] at hp
          exact ⟨cn, co, rfl, rfl, Ne.symm hp⟩
    · rintro ⟨cn, co, hn, ho, hne⟩
      refine ⟨?_, ?_⟩
      · have := assoc_get_some_mem new_data c cn hn
        simpa [snap_keys] using this
      · rw [ho, hn]
        simpa using Ne.symm hne
  · exact List.sorted_insertionSort _ _
  · exact List.sorted_insertionSort _ _
  · exact List.sorted_insertionSort _ _

/-- Claim C2 witness: the spec's example — Austria identical, Germany
added — reports Germany as added. -/
theorem c2_witness :
    "Germany" ∈ (compare_raw_data diff_new_snap diff_old_snap).added :=
  ((c2_compare_raw_data_diff diff_new_snap diff_old_snap).2.1 "Germany").mpr
    ⟨by decide, by decide⟩

/-- Helper: collapsing whitespace neither adds nor removes non-space
characters. -/
theorem mem_collapse_ws (c : Char) (hc : is_space_char c = false) :
    ∀ l : List Char, (c ∈ collapse_ws l ↔ c ∈ l) := by
  intro l
  induction l with
  | nil => simp [collapse_ws]
  | cons d rest ih =>
    have hcs : c ≠ ' ' := by
      intro h
      rw [h] at hc
      simp [is_space_char] at hc
    by_cases hd : is_space_char d = true
    · have hcd : c ≠ d := by
        intro h
        rw [h, hd] at hc
        cases hc
      simp only [collapse_ws, hd, if_true]
      split
      · rw [ih]
        simp [List.mem_cons, hcd]
      · simp [List.mem_cons, hcs, hcd, ih]
    · have hd' : is_space_char d = false := by
        cases hh : is_space_char d
        · rfl
        · exact absurd hh hd
      simp only [collapse_ws, hd', Bool.false_eq_true, if_false]
      simp [List.mem_cons, ih]

/-- Helper: `dropWhile` neither adds nor removes characters outside
the dropped class. -/
theorem mem_dropWhile_of (p : Char → Bool) (c : Char) (hc : p c = false) :
    ∀ l : List Char, (c ∈ l.dropWhile p ↔ c ∈ l) := by
  intro l
  induction l with
  | nil => simp
  | cons d rest ih =>
    rw [List.dropWhile_cons]
    by_cases hd : p d = true
    · have hcd : c ≠ d := by
        intro h
        rw [h, hd] at hc
        cases hc
      simp [hd, ih, List.mem_cons, hcd]
    · simp [hd]

/-- Helper: stripping the ends neither adds nor removes non-space
characters. -/
theorem mem_strip_ws (c : Char) (hc : is_space_char c = false)
    (l : List Char) : c ∈ strip_ws l ↔ c ∈ l := by
  unfold strip_ws
  rw [List.mem_reverse, mem_dropWhile_of _ _ hc, List.mem_reverse,
    mem_dropWhile_of _ _ hc]

/-- Claim C9 (amended): the pre-AI strip of `_prepare_data_for_ai`
blacklists a fixed set of special characters and so preserves every
other non-whitespace character — accented letters included; but the
Rehydrator's strip over service-authored `flavor_description` text
whitelists only ASCII letters, digits, space and `:%.,!?`, so it
removes accented letters instead of preserving them. -/
theorem c9_strip_amended :
    (∀ (s : String) (c : Char), is_space_char c = false →
      c ∉ special_blacklist →
      (c ∈ (clean_special_chars s).data ↔ c ∈ s.data)) ∧
    (∀ (s : String) (c : Char), c ∈ (strip_desc_chars s).data →
      allowed_desc_char c = true) ∧
    clean_special_chars "ç é ü" = "ç é ü" ∧
    strip_desc_chars "çéü" = "" := by
  refine ⟨?_, ?_, by decide, by decide⟩
  · intro s c hc hcb
    show c ∈ strip_ws (collapse_ws
      (s.data.map (fun x => if x ∈ special_blacklist then ' ' else x))) ↔ _
    rw [mem_strip_ws _ hc, mem_collapse_ws _ hc]
    have hcs : c ≠ ' ' := by
      intro h
      rw [h] at hc
      simp [is_space_char] at hc
    simp only [List.mem_map]
    constructor
    · rintro ⟨x, hx, hfx⟩
      by_cases hxb : x ∈ special_blacklist
      · rw [if_pos hxb] at hfx
        exact absurd hfx.symm hcs
      · rw [if_neg hxb] at hfx
        rw [← hfx]
        exact hx
    · intro hcl
      exact ⟨c, hcl, by rw [if_neg hcb]⟩
  · intro s c hcm
    show allowed_desc_char c = true
    have := List.mem_filter.mp hcm
    exact this.2

/-- Claim C9 witness: the pre-AI strip keeps the accented letter of
`"x*ç"` while deleting the blacklisted `*`. -/
theorem c9_witness :
    'ç' ∈ (clean_special_chars "x*ç").data :=
  (c9_strip_amended.1 "x*ç" 'ç' (by decide) (by decide)).mpr (by decide)

/-- Claim C9 counterexample: the Rehydrator's strip deletes the
accented letter `ç` outright, refuting the claim that accented
letters are preserved by every disallowed-character strip. -/
theorem c9_counterexample :
    'ç' ∈ "ç".data ∧ 'ç' ∉ (strip_desc_chars "ç").data := by
  refine ⟨by decide, by decide⟩

/-- Helper: the merge stage never touches `descr` or
`flavor_description` and never reports a rename. -/
theorem rehydrate_merge_fields (pm : List (String × Preserved)) (e : Edition) :
    (rehydrate_merge pm e).1.descr = e.descr ∧
    (rehydrate_merge pm e).1.flavor_description = e.flavor_description ∧
    ∀ i, (rehydrate_merge pm e).2.countP (rename_anomaly i) = 0 := by
  cases he : e.id with
  | none => simp [rehydrate_merge, he, rename_anomaly, List.countP_cons]
  | some i =>
    by_cases hi : i ≠ ""
    · cases hg : assoc_get pm i with
      | none =>
        simp [rehydrate_merge, he, hi, hg, rename_anomaly, List.countP_cons]
      | some pr =>
        simp [rehydrate_merge, he, hi, hg, rename_anomaly]
    · have hi2 : i = "" := by
        push_neg at hi
        exact hi
      simp [rehydrate_merge, he, hi2, rename_anomaly, List.countP_cons]

/-- Helper: the rename stage reports exactly one `field_renamed` for
the popped id when the mis-named field is present and the expected one
absent, and nothing otherwise. -/
theorem rehydrate_rename_count (e : Edition) (pid : Option String) (i : String) :
    (rehydrate_rename e pid).2.countP (rename_anomaly i) =
      if (e.descr.isSome && e.flavor_description.isNone) && pid == some i
      then 1 else 0 := by
  unfold rehydrate_rename
  by_cases hc : (e.descr.isSome && e.flavor_description.isNone) = true
  · simp only [hc, if_true, Bool.true_and]
    by_cases hp : (pid == some i) = true
    · have hpe : pid = some i := eq_of_beq hp
      simp [List.countP_cons, rename_anomaly, hpe]
    · simp only [List.countP_cons, List.countP_nil, rename_anomaly]
      have : (Anomaly.field_renamed pid == Anomaly.field_renamed (some i)) = false := by
        cases hb : (Anomaly.field_renamed pid == Anomaly.field_renamed (some i))
        · rfl
        · exfalso
          apply hp
          have := eq_of_beq hb
          injection this with h2
          simp [h2]
      simp [this, hp]
  · simp only [hc]
    simp only [Bool.false_eq_true, if_false, List.countP_nil]
    have hfalse : ((e.descr.isSome && e.flavor_description.isNone) &&
        pid == some i) = false := by
      rw [Bool.and_eq_false_iff]
      left
      exact Bool.eq_false_iff.mpr hc
    simp [hfalse]

/-- Helper: the per-edition anomaly count of `field_renamed` entries
for an id equals the `rename_needed` indicator of the incoming
edition. -/
theorem rehydrate_edition_rename_count (pm : List (String × Preserved))
    (e : Edition) (i : String) :
    (rehydrate_edition pm e).2.countP (rename_anomaly i) =
      if rename_needed i e then 1 else 0 := by
  obtain ⟨hd, hf, hm⟩ := rehydrate_merge_fields pm e
  show ((rehydrate_merge pm e).2 ++
    (rehydrate_rename (rehydrate_merge pm e).1 e.id).2).countP
      (rename_anomaly i) = _
  rw [List.countP_append, hm i, Nat.zero_add, rehydrate_rename_count, hd, hf]
  unfold rename_needed
  by_cases h1 : e.descr.isSome = true <;>
    by_cases h2 : e.flavor_description.isNone = true <;>
    by_cases h3 : (e.id == some i) = true <;>
    simp [h1, h2, h3, Option.isNone_iff_eq_none] at *

/-- Helper: the rename-anomaly count over a whole edition list. -/
theorem rehydrate_editions_rename_count (pm : List (String × Preserved))
    (i : String) :
    ∀ es : List Edition,
      (rehydrate_editions pm es).2.countP (rename_anomaly i) =
        es.countP (rename_needed i) := by
  intro es
  induction es with
  | nil => rfl
  | cons e es ih =>
    show ((rehydrate_edition pm e).2 ++ (rehydrate_editions pm es).2).countP _ = _
    rw [List.countP_append, ih, rehydrate_edition_rename_count,
      List.countP_cons]
    by_cases h : rename_needed i e = true <;> (simp [h]; try omega)

/-- Helper: the rename-anomaly count over the whole response. -/
theorem rehydrate_ai_response_rename_count (pm : List (String × Preserved))
    (cm : List (String × Option String)) (i : String) :
    ∀ resp : Snapshot,
      (rehydrate_ai_response resp pm cm).2.countP (rename_anomaly i) =
        (snap_editions resp).countP (rename_needed i) := by
  intro resp
  induction resp with
  | nil => rfl
  | cons p rest ih =>
    obtain ⟨n, c⟩ := p
    show ((match assoc_get cm n with
      | some fu => (({ c with flag_url := fu } : Country), ([] : List Anomaly))
      | none => (c, [.country_missing n])).2 ++
        (rehydrate_editions pm c.editions).2 ++
        (rehydrate_ai_response rest pm cm).2).countP _ = _
    rw [List.countP_append, List.countP_append]
    have hm : (match assoc_get cm n with
      | some fu => (({ c with flag_url := fu } : Country), ([] : List Anomaly))
      | none => (c, [.country_missing n])).2.countP (rename_anomaly i) = 0 := by
      cases assoc_get cm n with
      | none => simp [rename_anomaly, List.countP_cons]
      | some fu => simp
    rw [hm, rehydrate_editions_rename_count, ih]
    show _ = (c.editions ++ snap_editions rest).countP _
    rw [List.countP_append]
    omega

/-- Helper: after the rename stage no edition carries a `descr`
without a `flavor_description`. -/
theorem rehydrate_rename_descr_inv (e : Edition) (pid : Option String) :
    (rehydrate_rename e pid).1.descr.isSome = true →
    (rehydrate_rename e pid).1.flavor_description.isSome = true := by
  unfold rehydrate_rename
  by_cases hc : (e.descr.isSome && e.flavor_description.isNone) = true
  · intro h
    rw [if_pos hc] at h
    simp at h
  · intro h
    rw [if_neg hc] at h ⊢
    rw [Bool.and_eq_true] at hc
    push_neg at hc
    have := hc h
    cases hd : e.flavor_description with
    | some d => rfl
    | none => exact absurd (by rw [hd]; rfl) this

/-- Helper: the finish stage keeps `descr` and the presence of
`flavor_description` unchanged. -/
theorem rehydrate_finish_fields (e : Edition) :
    (rehydrate_finish e).descr = e.descr ∧
    (rehydrate_finish e).flavor_description.isSome =
      e.flavor_description.isSome := by
  cases hf : e.flavor <;> cases hd : e.flavor_description <;>
    simp [rehydrate_finish, hf, hd]

/-- Helper: the per-edition invariant — a surviving `descr` implies a
present `flavor_description`. -/
theorem rehydrate_edition_descr_inv (pm : List (String × Preserved))
    (e : Edition) :
    (rehydrate_edition pm e).1.descr.isSome = true →
    (rehydrate_edition pm e).1.flavor_description.isSome = true := by
  intro h
  show (rehydrate_finish (rehydrate_rename (rehydrate_merge pm e).1 e.id).1).flavor_description.isSome = true
  obtain ⟨hd, hf⟩ :=
    rehydrate_finish_fields (rehydrate_rename (rehydrate_merge pm e).1 e.id).1
  rw [hf]
  apply rehydrate_rename_descr_inv
  rw [← hd]
  exact h

/-- Helper: the invariant over a rehydrated edition list. -/
theorem rehydrate_editions_descr_inv (pm : List (String × Preserved)) :
    ∀ es : List Edition, ∀ e' ∈ (rehydrate_editions pm es).1,
      e'.descr.isSome = true → e'.flavor_description.isSome = true := by
  intro es
  induction es with
  | nil => intro e' he'; cases he'
  | cons e es ih =>
    intro e' he'
    rcases List.mem_cons.mp he' with h | h
    · rw [h]
      exact rehydrate_edition_descr_inv pm e
    · exact ih e' h

/-- Helper: the invariant over the whole rehydrated response. -/
theorem rehydrate_ai_response_descr_inv (pm : List (String × Preserved))
    (cm : List (String × Option String)) :
    ∀ resp : Snapshot, ∀ p ∈ (rehydrate_ai_response resp pm cm).1,
      ∀ e ∈ p.2.editions,
        e.descr.isSome = true → e.flavor_description.isSome = true := by
  intro resp
  induction resp with
  | nil => intro p hp; cases hp
  | cons q rest ih =>
    obtain ⟨n, c⟩ := q
    intro p hp
    rcases List.mem_cons.mp hp with h | h
    · intro e he
      have hpe : p.2.editions = (rehydrate_editions pm c.editions).1 := by
        rw [h]
      rw [hpe] at he
      exact rehydrate_editions_descr_inv pm c.editions e he
    · exact ih p h

/-- Claim C5: when the service returns exactly one edition carrying a
`description` for the entity id where `flavor_description` is absent,
the Rehydrator's anomaly list contains exactly one `field_renamed`
entry for that id; and the rename is never fatal — every edition of
the returned catalog has a `flavor_description` whenever it still has
a `description`-style field. -/
theorem c5_rehydrate_field_rename (resp : Snapshot)
    (pm : List (String × Preserved)) (cm : List (String × Option String))
    (i : String) :
    ((snap_editions resp).countP (rename_needed i) = 1 →
      (rehydrate_ai_response resp pm cm).2.countP (rename_anomaly i) = 1) ∧
    (∀ p ∈ (rehydrate_ai_response resp pm cm).1, ∀ e ∈ p.2.editions,
      e.descr.isSome = true → e.flavor_description.isSome = true) :=
  ⟨fun h => by rw [rehydrate_ai_response_rename_count pm cm i resp]; exact h,
   rehydrate_ai_response_descr_inv pm cm resp⟩

/-- Claim C5 witness: the concrete mis-named response yields exactly
one `field_renamed` anomaly for its entity id. -/
theorem c5_witness :
    (rehydrate_ai_response rename_resp [] []).2.countP (rename_anomaly "e1") = 1 :=
  (c5_rehydrate_field_rename rename_resp [] [] "e1").1 (by decide)

/-- Helper: `has_key` decides key membership. -/
theorem has_key_iff {α : Type} (m : List (String × α)) (k : String) :
    has_key m k = true ↔ k ∈ m.map Prod.fst := by
  unfold has_key
  rw [List.any_eq_true]
  simp [List.mem_map, beq_iff_eq]

/-- Helper: inserting a fresh key appends. -/
theorem dict_insert_fresh {α : Type} (m : List (String × α)) (k : String)
    (v : α) (h : has_key m k = false) : dict_insert m k v = m ++ [(k, v)] := by
  unfold dict_insert
  have hc : ¬ (m.any (fun q => q.1 == k) = true) := by
    unfold has_key at h
    rw [h]
    simp
  rw [if_neg hc]

/-- Helper: `has_key` over an append. -/
theorem has_key_append {α : Type} (m1 m2 : List (String × α)) (k : String) :
    has_key (m1 ++ m2) k = (has_key m1 k || has_key m2 k) := by
  unfold has_key
  exact List.any_append

/-- Helper: the product side-map built from an edition list with
truthy, fresh, and mutually distinct ids is the entry list appended in
iteration order. -/
theorem add_editions_to_map_eq (pm : List (String × Preserved)) :
    ∀ es : List Edition,
      (∀ e ∈ es, good_id e = true) →
      (es.map edition_key).Nodup →
      (∀ e ∈ es, has_key pm (edition_key e) = false) →
      add_editions_to_map pm es = pm ++ es.map map_entry := by
  intro es
  induction es generalizing pm with
  | nil => intro _ _ _; simp [add_editions_to_map]
  | cons e es ih =>
    intro h1 h2 h3
    have hg : good_id e = true := h1 e (by simp)
    obtain ⟨i, hi, hne⟩ : ∃ i, e.id = some i ∧ i ≠ "" := by
      unfold good_id at hg
      cases hid : e.id with
      | none => rw [hid] at hg; cases hg
      | some j =>
        rw [hid] at hg
        exact ⟨j, rfl, by simpa using hg⟩
    have hkey : edition_key e = i := by
      unfold edition_key
      rw [hi]
      rfl
    have hfresh : has_key pm i = false := by
      rw [← hkey]
      exact h3 e (by simp)
    show add_editions_to_map pm (e :: es) = _
    simp only [add_editions_to_map, hi]
    rw [if_pos hne]
    rw [dict_insert_fresh pm i (prep_preserved e) hfresh]
    have h2' : (es.map edition_key).Nodup := (List.nodup_cons.mp h2).2
    have hnotin : edition_key e ∉ es.map edition_key := (List.nodup_cons.mp h2).1
    have h3' : ∀ e' ∈ es, has_key (pm ++ [(i, prep_preserved e)]) (edition_key e') = false := by
      intro e' he'
      rw [has_key_append]
      have ha : has_key pm (edition_key e') = false := h3 e' (by simp [he'])
      have hb : has_key [(i, prep_preserved e)] (edition_key e') = false := by
        unfold has_key
        simp only [List.any_cons, List.any_nil, Bool.or_false]
        have : i ≠ edition_key e' := by
          intro hcontra
          apply hnotin
          rw [hkey, hcontra]
          exact List.mem_map_of_mem edition_key he'
        simpa using this
      rw [ha, hb]
      rfl
    rw [ih (pm ++ [(i, prep_preserved e)]) (fun e' he' => h1 e' (by simp [he'])) h2' h3']
    have hentry : map_entry e = (i, prep_preserved e) := by
      unfold map_entry
      rw [hkey]
    rw [List.map_cons, hentry, List.append_assoc]
    rfl

/-- Helper: the full shape of `_prepare_data_for_ai`'s result under
truthy, globally distinct ids: stripped locales in order, the product
side-map as the global entry list, the locale side-map in order. -/
theorem prepare_aux_eq :
    ∀ (s : Snapshot) (pm : List (String × Preserved)),
      (∀ e ∈ snap_editions s, good_id e = true) →
      (((snap_editions s).map edition_key).Nodup) →
      (∀ e ∈ snap_editions s, has_key pm (edition_key e) = false) →
      prepare_aux s pm =
        (s.map (fun p => (p.1, prep_country p.2)),
         pm ++ (snap_editions s).map map_entry,
         s.map (fun p => (p.1, p.2.flag_url))) := by
  intro s
  induction s with
  | nil => intro pm _ _ _; simp [prepare_aux, snap_editions]
  | cons p rest ih =>
    intro pm h1 h2 h3
    obtain ⟨n, c⟩ := p
    have hsplit : snap_editions ((n, c) :: rest) = c.editions ++ snap_editions rest := rfl
    rw [hsplit] at h1 h2 h3
    rw [List.map_append] at h2
    have hnd := List.nodup_append.mp h2
    have hmap : add_editions_to_map pm c.editions =
        pm ++ c.editions.map map_entry :=
      add_editions_to_map_eq pm c.editions
        (fun e he => h1 e (List.mem_append_left _ he))
        hnd.1
        (fun e he => h3 e (List.mem_append_left _ he))
    have h3' : ∀ e ∈ snap_editions rest,
        has_key (pm ++ c.editions.map map_entry) (edition_key e) = false := by
      intro e he
      rw [has_key_append]
      have ha : has_key pm (edition_key e) = false :=
        h3 e (List.mem_append_right _ he)
      have hb : has_key (c.editions.map map_entry) (edition_key e) = false := by
        cases hk : has_key (c.editions.map map_entry) (edition_key e) with
        | false => rfl
        | true =>
          exfalso
          have hmem := (has_key_iff _ _).mp hk
          rw [List.map_map] at hmem
          have hmem2 : edition_key e ∈ c.editions.map edition_key := by
            have hcomp : (Prod.fst ∘ map_entry) = edition_key := by
              funext e'
              rfl
            rw [hcomp] at hmem
            exact hmem
          have hin : edition_key e ∈ (snap_editions rest).map edition_key :=
            List.mem_map_of_mem edition_key he
          exact hnd.2.2 hmem2 hin
      rw [ha, hb]
      rfl
    show prepare_aux ((n, c) :: rest) pm = _
    simp only [prepare_aux]
    rw [hmap]
    rw [ih (pm ++ c.editions.map map_entry)
      (fun e he => h1 e (List.mem_append_right _ he))
      hnd.2.1 h3']
    simp only [List.map_cons]
    rw [hsplit, List.map_append, List.append_assoc]

/-- Claim C6 (amended): when every edition carries a truthy (non-empty)
id and ids are pairwise distinct across the whole snapshot, the
product side-map built by `_prepare_data_for_ai` has exactly one entry
per edition; in general the claim fails (see the counterexample) since
a duplicated or missing id collapses or drops entries. -/
theorem c6_product_map_size (s : Snapshot)
    (h1 : ∀ e ∈ snap_editions s, good_id e = true)
    (h2 : ((snap_editions s).map edition_key).Nodup) :
    (prepare_data_for_ai s).2.1.length = (snap_editions s).length := by
  unfold prepare_data_for_ai
  rw [prepare_aux_eq s [] h1 h2 (fun e _ => rfl)]
  simp

/-- Claim C6 counterexample: a snapshot with the same entity id on two
editions yields a one-entry product map for two editions. -/
theorem c6_counterexample :
    (prepare_data_for_ai dup_id_snap).2.1.length ≠
      (snap_editions dup_id_snap).length := by
  decide

/-- Claim C6 witness: the amended invariant on a concrete well-formed
snapshot. -/
theorem c6_witness :
    (prepare_data_for_ai c1_good_snap).2.1.length =
      (snap_editions c1_good_snap).length :=
  c6_product_map_size c1_good_snap (by decide) (by decide)

/-- Helper: unpacking Python truthiness of an id. -/
theorem good_id_spec (e : Edition) (h : good_id e = true) :
    ∃ i, e.id = some i ∧ i ≠ "" := by
  unfold good_id at h
  cases hid : e.id with
  | none => rw [hid] at h; cases h
  | some j =>
    rw [hid] at h
    exact ⟨j, rfl, by simpa using h⟩

/-- Helper: first-match lookup finds the unique entry of a key in a
duplicate-free association list. -/
theorem assoc_get_of_mem_nodup {α : Type} :
    ∀ (m : List (String × α)) (k : String) (v : α),
      (m.map Prod.fst).Nodup → (k, v) ∈ m → assoc_get m k = some v := by
  intro m
  induction m with
  | nil => intro k v _ hm; cases hm
  | cons q rest ih =>
    intro k v hnd hm
    rcases List.mem_cons.mp hm with h | h
    · rw [← h]
      unfold assoc_get
      rw [List.find?_cons_of_pos]
      simp
    · have hk : k ∈ rest.map Prod.fst := by
        have : (k, v).1 ∈ rest.map Prod.fst := List.mem_map_of_mem Prod.fst h
        exact this
      have hq : q.1 ∉ rest.map Prod.fst := (List.nodup_cons.mp (by simpa using hnd)).1
      have hne : (q.1 == k) = false := by
        have : q.1 ≠ k := fun hc => hq (hc ▸ hk)
        simpa using this
      unfold assoc_get
      rw [List.find?_cons_of_neg]
      · exact ih k v (List.nodup_cons.mp (by simpa using hnd)).2 h
      · simp [hne]

/-- Helper: mapping a pointwise-identity function is the identity. -/
theorem list_map_id_of {β : Type} (f : β → β) :
    ∀ l : List β, (∀ x ∈ l, f x = x) → l.map f = l := by
  intro l
  induction l with
  | nil => intro _; rfl
  | cons x xs ih =>
    intro h
    rw [List.map_cons, h x (by simp), ih (fun y hy => h y (by simp [hy]))]

/-- Helper: an edition of a member locale is an edition of the
snapshot. -/
theorem mem_snap_editions (e : Edition) :
    ∀ s : Snapshot, ∀ p ∈ s, e ∈ p.2.editions → e ∈ snap_editions s := by
  intro s
  induction s with
  | nil => intro p hp; cases hp
  | cons q rest ih =>
    intro p hp he
    rcases List.mem_cons.mp hp with h | h
    · show e ∈ q.2.editions ++ snap_editions rest
      exact List.mem_append_left _ (h ▸ he)
    · show e ∈ q.2.editions ++ snap_editions rest
      exact List.mem_append_right _ (ih p h he)

/-- Helper: restoring the preserved fields undoes the stripping of one
edition, provided its id resolves to its own side-map entry and its
`flavor_description` is already clean. -/
theorem merge_back_edition_prep (pm : List (String × Preserved)) (e : Edition)
    (i : String) (hid : e.id = some i)
    (hlook : assoc_get pm i = some (prep_preserved e))
    (hfd : ∀ t, e.flavor_description = some t → t ≠ "" →
      clean_special_chars t = t) :
    merge_back_edition pm (prep_edition e) = e := by
  obtain ⟨id0, n0, fl0, fd0, dc0, c0, iu0, at0, pu0⟩ := e
  simp only at hid
  subst hid
  cases fd0 with
  | none =>
    simp only [prep_edition, merge_back_edition, prep_preserved] at hlook ⊢
    simp [hlook]
  | some t =>
    by_cases ht : t ≠ ""
    · have hcl : clean_special_chars t = t := hfd t rfl ht
      simp only [prep_edition, merge_back_edition, prep_preserved] at hlook ⊢
      simp [ht, hcl, hlook]
    · simp only [prep_edition, merge_back_edition, prep_preserved] at hlook ⊢
      simp [ht, hlook]

/-- Helper: restoring `flag_url` and the preserved edition fields
undoes the stripping of one locale. -/
theorem merge_back_country_prep (pm : List (String × Preserved))
    (cm : List (String × Option String)) (n : String) (c : Country)
    (hcm : assoc_get cm n = some c.flag_url)
    (hed : ∀ e ∈ c.editions, merge_back_edition pm (prep_edition e) = e) :
    merge_back_country pm cm (n, prep_country c) = (n, c) := by
  obtain ⟨flag0, eds0, fu0⟩ := c
  simp only [merge_back_country, prep_country] at *
  rw [hcm]
  rw [List.map_map]
  rw [list_map_id_of (merge_back_edition pm ∘ prep_edition) eds0 hed]

/-- Claim C1 (amended): the extract-then-merge-back round trip
reconstructs the snapshot exactly when every edition has a truthy id,
ids are globally unique, locale keys are unique, all four preserved
edition fields and the locale `flag_url` are present, and every
`flavor_description` is a fixed point of the pre-AI cleanup.  In
general the claim fails (see the counterexample): the extractor also
rewrites `flavor_description` in place, and that cleanup is not
recorded in any side-map.  The two presence hypotheses are not needed
by the Lean model but keep the statement within the region where the
`Option`-based embedding and Python's key-present-with-`None`
distinction agree (see the header conventions). -/
theorem c1_round_trip_amended (s : Snapshot)
    (h1 : ∀ e ∈ snap_editions s, good_id e = true)
    (h2 : ((snap_editions s).map edition_key).Nodup)
    (h3 : (s.map Prod.fst).Nodup)
    (_h4 : ∀ e ∈ snap_editions s, e.color.isSome = true ∧
      e.image_url.isSome = true ∧ e.alt_text.isSome = true ∧
      e.product_url.isSome = true)
    (_h5 : ∀ p ∈ s, p.2.flag_url.isSome = true)
    (h6 : ∀ e ∈ snap_editions s, ∀ t, e.flavor_description = some t →
      t ≠ "" → clean_special_chars t = t) :
    merge_back (prepare_data_for_ai s).1 (prepare_data_for_ai s).2.1
      (prepare_data_for_ai s).2.2 = s := by
  have hprep := prepare_aux_eq s [] h1 h2 (fun e _ => rfl)
  unfold prepare_data_for_ai
  rw [hprep]
  show (s.map (fun p => (p.1, prep_country p.2))).map
    (merge_back_country ([] ++ (snap_editions s).map map_entry)
      (s.map (fun p => (p.1, p.2.flag_url)))) = s
  rw [List.nil_append, List.map_map]
  apply list_map_id_of
  intro p hp
  obtain ⟨n, c⟩ := p
  show merge_back_country ((snap_editions s).map map_entry)
    (s.map (fun p => (p.1, p.2.flag_url))) (n, prep_country c) = (n, c)
  apply merge_back_country_prep
  · apply assoc_get_of_mem_nodup
    · rw [List.map_map]
      have hcomp : (Prod.fst ∘ fun p : String × Country => (p.1, p.2.flag_url)) =
          Prod.fst := funext fun _ => rfl
      rw [hcomp]
      exact h3
    · exact List.mem_map_of_mem _ hp
  · intro e he
    have hes : e ∈ snap_editions s := mem_snap_editions e s (n, c) hp he
    obtain ⟨i, hi, hne⟩ := good_id_spec e (h1 e hes)
    have hkey : edition_key e = i := by
      unfold edition_key
      rw [hi]
      rfl
    apply merge_back_edition_prep _ e i hi
    · rw [← hkey]
      apply assoc_get_of_mem_nodup
      · rw [List.map_map]
        have hcomp : (Prod.fst ∘ map_entry) = edition_key := funext fun _ => rfl
        rw [hcomp]
        exact h2
      · exact List.mem_map_of_mem map_entry hes
    · intro t ht hte
      exact h6 e hes t ht hte

/-- Claim C1 counterexample: a snapshot whose `flavor_description`
holds a blacklisted character (`*`) does not survive the round trip —
the extractor cleans the text in place and no side-map restores it. -/
theorem c1_counterexample :
    merge_back (prepare_data_for_ai c1_bad_snap).1
      (prepare_data_for_ai c1_bad_snap).2.1
      (prepare_data_for_ai c1_bad_snap).2.2 ≠ c1_bad_snap := by
  decide

/-- Claim C1 witness: the amended round trip at a concrete clean
snapshot. -/
theorem c1_witness :
    merge_back (prepare_data_for_ai c1_good_snap).1
      (prepare_data_for_ai c1_good_snap).2.1
      (prepare_data_for_ai c1_good_snap).2.2 = c1_good_snap :=
  c1_round_trip_amended c1_good_snap (by decide) (by decide) (by decide)
    (by decide) (by decide) (by decide)
